import Mathlib

/-!
Verification development for the `jsoncolor` Go package: a colorizing
re-formatter for JSON byte streams, intended as a replacement for the
standard library's `json.MarshalIndent`.

The source file contains two revisions of the formatter; both are embedded
here.  `procTok1` / `format1` model the first revision's per-token loop body
(`formatterState.format`, first revision), `procTok2` / `format2` model the
second revision's loop body (the variant with space/comma/colon colors).

Modelling conventions:
 * The output buffer `dst` is modelled as a list of segments (`Seg`); each
   `fmt.Fprint(dst, sprintfX(...))` call appends one `Seg.painted cat text`
   segment, where `cat` is the color category whose `SprintfFunc` was used,
   and each plain `fmt.Fprint(dst, s)` call appends `Seg.plain s`.  The color
   library wraps the printed text in ANSI escape sequences and never alters
   the text itself, so stripping all color escapes from the real byte output
   yields exactly `strip` of the segment list.
 * The token decoder (`encoding/json`'s `Decoder` with `UseNumber`) is an
   external collaborator; its output on a valid document is the token list
   `tokens v` of the decoded value, and `dec.More()` after reading a token is
   `moreAfter rest`: it peeks the next non-space byte and reports whether it
   is neither `]` nor `\x7d` (false at EOF).  A decoder that fails yields its
   tokens up to the failure and then an error value (`TokStream`).
 * `fs.indent` is a memoized `strings.Repeat(f.Indent, n)` buffer sliced to
   `len(f.Indent) * indent` bytes; the bytes it prints are exactly
   `strRepeat f.ind indent`, which is how `printIndent` is modelled.
 * The Go `Formatter` fields `Prefix` and `Indent` are modelled by the
   fields `pfx` and `ind` of `Formatter`.
-/

namespace Jsoncolor

/-- Lexical token kinds produced by the JSON token decoder, as consumed by
`formatterState.formatToken`: the four delimiters, strings, number literal
text (`json.Number` under `UseNumber`), booleans and null. -/
inductive Tok where
  | objOpen : Tok
  | objClose : Tok
  | arrOpen : Tok
  | arrClose : Tok
  | tstr : String → Tok
  | tnum : String → Tok
  | tbool : Bool → Tok
  | tnull : Tok
deriving DecidableEq

/-- Whether a token is a closing delimiter (its first byte is `]` or the
closing brace), which is what `Decoder.More` peeks at. -/
def Tok.isClose : Tok → Bool
  | .objClose => true
  | .arrClose => true
  | _ => false

/-- Model of `dec.More()` after a token whose remaining token list is `rest`:
true iff another token follows and it is not a closing delimiter. -/
def moreAfter : List Tok → Bool
  | [] => false
  | t :: _ => !t.isClose

/-- The `frame` struct: one level of container nesting during traversal. -/
structure Frame where
  object : Bool
  field : Bool
  array : Bool
  empty : Bool
  indent : Nat
deriving DecidableEq

/-- `frame.inArray` -/
def Frame.inArray (f : Frame) : Bool := f.array

/-- `frame.inObject` -/
def Frame.inObject (f : Frame) : Bool := f.object

/-- `frame.inArrayOrObject` -/
def Frame.inArrayOrObject (f : Frame) : Bool := f.object || f.array

/-- `frame.inField` -/
def Frame.inField (f : Frame) : Bool := f.object && f.field

/-- `frame.isEmpty` -/
def Frame.isEmpty (f : Frame) : Bool := (f.object || f.array) && f.empty

/-- The synthetic root frame `{}` pushed by `newFormatterState`. -/
def rootFrame : Frame := ⟨false, false, false, false, 0⟩

/-- `newFormatterState` starts with `frames: []*frame{{}}`. -/
def initFrames : List Frame := [rootFrame]

/-- `fs.frame()`: the top of the frame stack (head of the list).  The Go code
would panic on an empty stack; the default value stands in for that case,
which the stack invariant shows unreachable on valid input. -/
def topFrame (fr : List Frame) : Frame := fr.headD rootFrame

/-- `fs.enterFrame(t, empty)`: push a frame for delimiter `t` with the given
emptiness flag and the parent's indent plus one. -/
def enterFrame (fr : List Frame) (t : Tok) (empty : Bool) : List Frame :=
  { object := t == Tok.objOpen, field := false, array := t == Tok.arrOpen,
    empty := empty, indent := (topFrame fr).indent + 1 } :: fr

/-- `fs.leaveFrame()`: pop the top frame. -/
def leaveFrame (fr : List Frame) : List Frame := fr.tail

/-- The end-of-iteration `if frame.inObject() \x7b frame.toggleField() \x7d`
applied to the current top frame. -/
def toggleTop (fr : List Frame) : List Frame :=
  match fr with
  | [] => []
  | f :: rest => if f.inObject then { f with field := !f.field } :: rest else f :: rest

/-- Color categories: one per `SprintfFunc` closure held by a
`formatterState` (both revisions pooled; the first revision does not use
`space`, `comma` or `colon`, printing those characters unpainted). -/
inductive Cat where
  | object | array | fieldName | stringValue | trueValue | falseValue
  | number | nullValue | space | comma | colon
deriving DecidableEq

/-- One write to the output buffer: either text printed through a color's
sprintf function (wrapped in that color's escape sequences) or raw text. -/
inductive Seg where
  | painted : Cat → String → Seg
  | plain : String → Seg
deriving DecidableEq

/-- The text carried by a segment, i.e. the bytes that remain once all color
escape sequences are stripped. -/
def Seg.text : Seg → String
  | painted _ s => s
  | plain s => s

/-- Color-stripped bytes of an output segment list. -/
def strip (segs : List Seg) : String := (segs.map Seg.text).foldr (· ++ ·) ""

/-- The formatter configuration: `pfx` models the Go `Formatter.Prefix`
string prepended to newlines, `ind` the `Formatter.Indent` unit repeated per
nesting depth.  Colors are not configuration of the segment-level model:
each category paints independently at render time. -/
structure Formatter where
  pfx : String
  ind : String
deriving DecidableEq

/-- `DefaultPrefix = ""` -/
def DefaultPfx : String := ""

/-- `DefaultIndent = "  "` -/
def DefaultInd : String := "  "

/-- `NewFormatter()` (the `Prefix`/`Indent` part; all colors are the package
defaults, identical in every `NewFormatter` result). -/
def NewFormatter : Formatter := { pfx := DefaultPfx, ind := DefaultInd }

/-- `strings.Repeat s n` -/
def strRepeat (s : String) : Nat → String
  | 0 => ""
  | n + 1 => s ++ strRepeat s n

/-- Hexadecimal digit as written by `encoding/json` (lowercase). -/
def hexDigit (n : Nat) : Char :=
  if n < 10 then Char.ofNat (48 + n) else Char.ofNat (87 + n)

/-- Escaping of one character as performed by `json.Marshal` on a string
value (HTML escaping on, as in the default encoder the formatter calls). -/
def escChar (c : Char) : String :=
  if c = '"' then "\\\""
  else if c = '\\' then "\\\\"
  else if c = '\n' then "\\n"
  else if c = '\r' then "\\r"
  else if c = '\t' then "\\t"
  else if c = '<' then "\\u003c"
  else if c = '>' then "\\u003e"
  else if c = '&' then "\\u0026"
  else if c.toNat < 32 then
    "\\u00" ++ String.mk [hexDigit (c.toNat / 16), hexDigit (c.toNat % 16)]
  else if c = ' ' then "\\u2028"
  else if c = ' ' then "\\u2029"
  else String.singleton c

/-- `json.Marshal` of a string: quoted, escaped text.  Used by `printField`
and `printString`, and by the reference encoders. -/
def quoteStr (s : String) : String :=
  "\"" ++ String.join (s.data.map escChar) ++ "\""

/-- `printDelim` / `printObject` / `printArray`: braces through the object
color, brackets through the array color. -/
def delimSeg : Tok → Seg
  | .objOpen => .painted .object "\x7b"
  | .objClose => .painted .object "\x7d"
  | .arrOpen => .painted .array "["
  | .arrClose => .painted .array "]"
  | _ => .plain ""

/-- `formatToken` on a non-delimiter token: number literal verbatim through
the number color; a string through the field color when the current frame
expects a field name, else through the string color; booleans through the
true/false colors; null through the null color. -/
def scalarSeg (fr : List Frame) : Tok → Seg
  | .tnum n => .painted .number n
  | .tstr s =>
    if (topFrame fr).inField then .painted .fieldName (quoteStr s)
    else .painted .stringValue (quoteStr s)
  | .tbool true => .painted .trueValue "true"
  | .tbool false => .painted .falseValue "false"
  | .tnull => .painted .nullValue "null"
  | _ => .plain ""

/-- `fs.printIndent` of the first revision: the prefix (plain, only when
non-empty) followed by the indent unit repeated `frame().indent` times
(plain, only when the depth is positive). -/
def printIndent1 (cfg : Formatter) (fr : List Frame) : List Seg :=
  (if 0 < cfg.pfx.length then [Seg.plain cfg.pfx] else []) ++
  (if 0 < (topFrame fr).indent
    then [Seg.plain (strRepeat cfg.ind (topFrame fr).indent)] else [])

/-- `fs.printIndent` of the second revision: as `printIndent1` but the
indentation bytes go through the space color. -/
def printIndent2 (cfg : Formatter) (fr : List Frame) : List Seg :=
  (if 0 < cfg.pfx.length then [Seg.plain cfg.pfx] else []) ++
  (if 0 < (topFrame fr).indent
    then [Seg.painted .space (strRepeat cfg.ind (topFrame fr).indent)] else [])

/-- One iteration of the first revision's `formatterState.format` loop:
given the frame stack, the token just read and `dec.More()`, produce the
segments written and the updated frame stack. -/
def procTok1 (cfg : Formatter) (fr : List Frame) (t : Tok) (more : Bool) :
    List Seg × List Frame :=
  let frame := topFrame fr
  let endStr := if frame.inArrayOrObject && more then ",\n" else "\n"
  match t with
  | .objOpen | .arrOpen =>
    let pre := if frame.inObject then [Seg.plain " "] else printIndent1 cfg fr
    let nl := if more then [Seg.plain "\n"] else []
    (pre ++ [delimSeg t] ++ nl, toggleTop (enterFrame fr t !more))
  | .objClose | .arrClose =>
    let earlyEmpty := frame.isEmpty
    let fr2 := leaveFrame fr
    let pre := if earlyEmpty then [] else printIndent1 cfg fr2
    (pre ++ [delimSeg t] ++ [Seg.plain endStr], toggleTop fr2)
  | t' =>
    let isStr := match t' with | .tstr _ => true | _ => false
    let pIndent := if isStr then !frame.inObject || frame.inField else frame.inArray
    let endStr2 := if isStr && frame.inField then ": " else endStr
    let pre := if pIndent then printIndent1 cfg fr else []
    (pre ++ [scalarSeg fr t'] ++ [Seg.plain endStr2], toggleTop fr)

/-- One iteration of the second revision's `formatterState.format` loop
(space/comma/colon painted through their own colors, colon without a
following space, a space before every non-field scalar value). -/
def procTok2 (cfg : Formatter) (fr : List Frame) (t : Tok) (more : Bool) :
    List Seg × List Frame :=
  let frame := topFrame fr
  let printComma := frame.inArrayOrObject && more
  match t with
  | .objOpen | .arrOpen =>
    let pre := if frame.inObject then [Seg.painted .space " "] else printIndent2 cfg fr
    let nl := if more then [Seg.painted .space "\n"] else []
    (pre ++ [delimSeg t] ++ nl, toggleTop (enterFrame fr t !more))
  | .objClose | .arrClose =>
    let earlyEmpty := frame.isEmpty
    let fr2 := leaveFrame fr
    let pre := if earlyEmpty then [] else printIndent2 cfg fr2
    let commaSegs := if printComma then [Seg.painted .comma ","] else []
    (pre ++ [delimSeg t] ++ commaSegs ++ [Seg.painted .space "\n"], toggleTop fr2)
  | t' =>
    let isStr := match t' with | .tstr _ => true | _ => false
    let pIndent := if isStr then !frame.inObject || frame.inField else frame.inArray
    let pre := if pIndent then printIndent2 cfg fr else []
    let spaceSegs := if !frame.inField then [Seg.painted .space " "] else []
    let post :=
      if frame.inField then [Seg.painted .colon ":"]
      else (if printComma then [Seg.painted .comma ","] else []) ++
        [Seg.painted .space "\n"]
    (pre ++ spaceSegs ++ [scalarSeg fr t'] ++ post, toggleTop fr)

/-- The `for` loop of `formatterState.format`, abstracted over the per-token
body: reads each token, computes `dec.More()` on the remainder, appends the
written segments and threads the frame stack. -/
def runFrom (proc : List Frame → Tok → Bool → List Seg × List Frame) :
    List Frame → List Tok → List Seg × List Frame
  | fr, [] => ([], fr)
  | fr, t :: rest =>
    let st := proc fr t (moreAfter rest)
    let r2 := runFrom proc st.2 rest
    (st.1 ++ r2.1, r2.2)

/-- `Formatter.Format` (first revision) on the token stream of `src`: a fresh
`formatterState` is built per call and the loop is run from the root frame. -/
def format1 (cfg : Formatter) (toks : List Tok) : List Seg :=
  (runFrom (procTok1 cfg) initFrames toks).1

/-- `Formatter.Format` (second revision) on the token stream of `src`. -/
def format2 (cfg : Formatter) (toks : List Tok) : List Seg :=
  (runFrom (procTok2 cfg) initFrames toks).1

/-- The frame-stack trace of the first revision's loop: the stack as it
stands when each token is read, plus the final stack. -/
def framesTrace1 (cfg : Formatter) : List Frame → List Tok → List (List Frame)
  | fr, [] => [fr]
  | fr, t :: rest =>
    fr :: framesTrace1 cfg (procTok1 cfg fr t (moreAfter rest)).2 rest

/-- The pure frame-stack transition of one loop iteration (common to both
revisions): enter on an opening delimiter (with emptiness from look-ahead),
leave on a closing one, then toggle the field flag of the now-current frame
when it is an object frame. -/
def stepFrames (fr : List Frame) (t : Tok) (more : Bool) : List Frame :=
  match t with
  | .objOpen | .arrOpen => toggleTop (enterFrame fr t !more)
  | .objClose | .arrClose => toggleTop (leaveFrame fr)
  | _ => toggleTop fr

/-- Frame-stack trace induced by `stepFrames` alone. -/
def framesTrace : List Frame → List Tok → List (List Frame)
  | fr, [] => [fr]
  | fr, t :: rest => fr :: framesTrace (stepFrames fr t (moreAfter rest)) rest

/-- A decoder token stream: the tokens successfully decoded, then either a
clean EOF (`none`) or the decoder's error value (`some e`). -/
structure TokStream (ε : Type) where
  toks : List Tok
  term : Option ε

/-- `Formatter.Format`'s result with the decoder outcome taken into account:
the loop `return err`s the decoder's error unchanged when `dec.Token()`
fails, and returns nil after a clean EOF `break`. -/
def format1E {ε : Type} (cfg : Formatter) (ts : TokStream ε) :
    Except ε (List Seg) :=
  match ts.term with
  | some e => Except.error e
  | none => Except.ok (format1 cfg ts.toks)

/-- The `marshal` helper: `json.Marshal` the value (its outcome is the
`enc` argument, the encoder being external), then `Format` into a fresh
buffer; on either failure `return nil, err`, else the buffer's bytes.  The
pair mirrors Go's `([]byte, error)` result. -/
def marshalGo {ε : Type} (f : Formatter) (enc : Except ε (TokStream ε)) :
    Option (List Seg) × Option ε :=
  match enc with
  | .error e => (none, some e)
  | .ok ts =>
    match format1E f ts with
    | .error e => (none, some e)
    | .ok out => (some out, none)

/-- `Marshal(v)`: `marshal` with `NewFormatter()` unchanged. -/
def MarshalGo {ε : Type} (enc : Except ε (TokStream ε)) :
    Option (List Seg) × Option ε :=
  marshalGo NewFormatter enc

/-- `MarshalIndent(v, prefix, indent)`: `marshal` with `NewFormatter()` whose
`Prefix` and `Indent` are overwritten by the arguments. -/
def MarshalIndentGo {ε : Type} (p i : String) (enc : Except ε (TokStream ε)) :
    Option (List Seg) × Option ε :=
  marshalGo { NewFormatter with pfx := p, ind := i } enc

/- JSON-representable values (with number literals kept as their source
text, as `UseNumber` decoding does); mutual with element and field lists so
that structural recursion and induction stay simple. -/
mutual
inductive Json where
  | null : Json
  | jbool : Bool → Json
  | num : String → Json
  | str : String → Json
  | arr : JsonElems → Json
  | obj : JsonFields → Json
inductive JsonElems where
  | nil : JsonElems
  | cons : Json → JsonElems → JsonElems
inductive JsonFields where
  | fnil : JsonFields
  | fcons : String → Json → JsonFields → JsonFields
end

/- The token sequence the decoder yields for a valid document: delimiters
around container contents, scalars as single tokens, object fields as a
string token followed by the value's tokens. -/
mutual
def tokens : Json → List Tok
  | .null => [Tok.tnull]
  | .jbool b => [Tok.tbool b]
  | .num n => [Tok.tnum n]
  | .str s => [Tok.tstr s]
  | .arr es => Tok.arrOpen :: (elemsToks es ++ [Tok.arrClose])
  | .obj fs => Tok.objOpen :: (fieldsToks fs ++ [Tok.objClose])
def elemsToks : JsonElems → List Tok
  | .nil => []
  | .cons v tl => tokens v ++ elemsToks tl
def fieldsToks : JsonFields → List Tok
  | .fnil => []
  | .fcons k v tl => Tok.tstr k :: (tokens v ++ fieldsToks tl)
end

/- Modelled from the spec: the standard library's compact JSON encoder
(`json.Marshal` output shape) — no whitespace between any two tokens. -/
mutual
def encCompact : Json → String
  | .null => "null"
  | .jbool true => "true"
  | .jbool false => "false"
  | .num n => n
  | .str s => quoteStr s
  | .arr es => "[" ++ encCompactElems es ++ "]"
  | .obj fs => "\x7b" ++ encCompactFields fs ++ "\x7d"
def encCompactElems : JsonElems → String
  | .nil => ""
  | .cons v .nil => encCompact v
  | .cons v tl => encCompact v ++ "," ++ encCompactElems tl
def encCompactFields : JsonFields → String
  | .fnil => ""
  | .fcons k v .fnil => quoteStr k ++ ":" ++ encCompact v
  | .fcons k v tl => quoteStr k ++ ":" ++ encCompact v ++ "," ++ encCompactFields tl
end

/- Modelled from the spec: the standard library's indented JSON writer
(`json.MarshalIndent` with the given per-line leading string `p` and indent
unit `i`) for a value at nesting depth `d`: each element of a non-empty
container begins on a new line with `p` then `i` repeated per depth, the
closing delimiter aligns with the opening line, empty containers collapse,
a field name is followed by a colon and one space, and the document neither
begins with `p` nor ends with a newline. -/
mutual
def encIndent (p i : String) (d : Nat) : Json → String
  | .null => "null"
  | .jbool true => "true"
  | .jbool false => "false"
  | .num n => n
  | .str s => quoteStr s
  | .arr .nil => "[]"
  | .arr (.cons v tl) =>
    "[\n" ++ encIndentElems p i (d + 1) (JsonElems.cons v tl) ++
      "\n" ++ p ++ strRepeat i d ++ "]"
  | .obj .fnil => "\x7b\x7d"
  | .obj (.fcons k v tl) =>
    "\x7b\n" ++ encIndentFields p i (d + 1) (JsonFields.fcons k v tl) ++
      "\n" ++ p ++ strRepeat i d ++ "\x7d"
def encIndentElems (p i : String) (d : Nat) : JsonElems → String
  | .nil => ""
  | .cons v .nil => p ++ strRepeat i d ++ encIndent p i d v
  | .cons v tl =>
    p ++ strRepeat i d ++ encIndent p i d v ++ ",\n" ++ encIndentElems p i d tl
def encIndentFields (p i : String) (d : Nat) : JsonFields → String
  | .fnil => ""
  | .fcons k v .fnil =>
    p ++ strRepeat i d ++ quoteStr k ++ ": " ++ encIndent p i d v
  | .fcons k v tl =>
    p ++ strRepeat i d ++ quoteStr k ++ ": " ++ encIndent p i d v ++ ",\n" ++
      encIndentFields p i d tl
end

/-- The value `\x7b"a":1,"b":2\x7d` of the spec's compact-mode scenario. -/
def exAB : Json :=
  Json.obj (JsonFields.fcons "a" (Json.num "1")
    (JsonFields.fcons "b" (Json.num "2") JsonFields.fnil))

/-- An array holding the two number literals the verbatim-numbers claim
names: `[1e100,0.10]`. -/
def exNums : Json :=
  Json.arr (JsonElems.cons (Json.num "1e100")
    (JsonElems.cons (Json.num "0.10") JsonElems.nil))

/-! ## Helper lemmas -/

theorem strip_nil : strip [] = "" := rfl

theorem strip_cons (s : Seg) (l : List Seg) :
    strip (s :: l) = s.text ++ strip l := rfl

theorem strip_append (a b : List Seg) :
    strip (a ++ b) = strip a ++ strip b := by
  induction a with
  | nil => simp [strip]
  | cons s l ih =>
    simp only [List.cons_append, strip_cons, ih, String.append_assoc]

/-- Splitting the loop at a list boundary: the output of the whole run is
the output accumulated over the first part followed by the run of the rest
from some intermediate frame stack. -/
theorem runFrom_split (proc : List Frame → Tok → Bool → List Seg × List Frame) :
    ∀ (xs : List Tok) (fr : List Frame) (ys : List Tok), ∃ pre fr2,
      (runFrom proc fr (xs ++ ys)).1 = pre ++ (runFrom proc fr2 ys).1 := by
  intro xs
  induction xs with
  | nil => intro fr ys; exact ⟨[], fr, by simp⟩
  | cons x xs ih =>
    intro fr ys
    obtain ⟨pre, fr2, h⟩ := ih (proc fr x (moreAfter (xs ++ ys))).2 ys
    refine ⟨(proc fr x (moreAfter (xs ++ ys))).1 ++ pre, fr2, ?_⟩
    simp [runFrom, h, List.append_assoc]

/-- Splitting the loop before its final token: the last token is processed
with `dec.More()` false, from some intermediate frame stack. -/
theorem runFrom_snoc (proc : List Frame → Tok → Bool → List Seg × List Frame) :
    ∀ (xs : List Tok) (fr : List Frame) (t : Tok), ∃ pre fr2,
      (runFrom proc fr (xs ++ [t])).1 = pre ++ (proc fr2 t false).1 := by
  intro xs
  induction xs with
  | nil =>
    intro fr t
    exact ⟨[], fr, by simp [runFrom, moreAfter]⟩
  | cons x xs ih =>
    intro fr t
    obtain ⟨pre, fr2, h⟩ := ih (proc fr x (moreAfter (xs ++ [t]))).2 t
    refine ⟨(proc fr x (moreAfter (xs ++ [t]))).1 ++ pre, fr2, ?_⟩
    simp [runFrom, h, List.append_assoc]

/-- Processing an opening delimiter immediately followed by its closing
delimiter (object case): the look-ahead is false, so no newline follows the
opener, the frame is pushed empty, and the closer skips `printIndent`; the
two delimiter segments are emitted back to back. -/
theorem run1_empty_obj (cfg : Formatter) (fr2 : List Frame) (ys : List Tok) :
    (runFrom (procTok1 cfg) fr2 (Tok.objOpen :: Tok.objClose :: ys)).1
    = (if (topFrame fr2).inObject then [Seg.plain " "] else printIndent1 cfg fr2)
      ++ (Seg.painted Cat.object "\x7b" :: Seg.painted Cat.object "\x7d" ::
          Seg.plain (if moreAfter ys then ",\n" else "\n") ::
          (runFrom (procTok1 cfg) (toggleTop fr2) ys).1) := by
  simp [runFrom, procTok1, moreAfter, Tok.isClose, enterFrame, leaveFrame,
    toggleTop, topFrame, Frame.inObject, Frame.isEmpty, Frame.inArrayOrObject,
    delimSeg]

/-- Processing an opening delimiter immediately followed by its closing
delimiter (array case). -/
theorem run1_empty_arr (cfg : Formatter) (fr2 : List Frame) (ys : List Tok) :
    (runFrom (procTok1 cfg) fr2 (Tok.arrOpen :: Tok.arrClose :: ys)).1
    = (if (topFrame fr2).inObject then [Seg.plain " "] else printIndent1 cfg fr2)
      ++ (Seg.painted Cat.array "[" :: Seg.painted Cat.array "]" ::
          Seg.plain (if moreAfter ys then ",\n" else "\n") ::
          (runFrom (procTok1 cfg) (toggleTop fr2) ys).1) := by
  simp [runFrom, procTok1, moreAfter, Tok.isClose, enterFrame, leaveFrame,
    toggleTop, topFrame, Frame.inObject, Frame.isEmpty, Frame.inArrayOrObject,
    delimSeg]

/-! ## Claims -/

/-- C1 (code_bug): the spec, the package documentation and the test suite
(`TestCompareWithStd`) all require that stripping color escapes from
`MarshalIndent(V, P, I)` reproduce `encoding/json.MarshalIndent` exactly,
and in particular that V = null, P = "", I = "  " yield exactly `null`; the
code instead emits a trailing newline after the top-level value, producing
`null\n` (the second revision even ` null\n`), which differs from the
reference output `null`. -/
theorem claim_C1_eval :
    strip (format1 { pfx := "", ind := "  " } (tokens Json.null)) = "null\n"
    ∧ strip (format2 { pfx := "", ind := "  " } (tokens Json.null)) = " null\n"
    ∧ encIndent "" "  " 0 Json.null = "null"
    ∧ strip (format1 { pfx := "", ind := "  " } (tokens Json.null))
        ≠ encIndent "" "  " 0 Json.null := by
  have h : tokens Json.null = [Tok.tnull] := by simp [tokens]
  have he : encIndent "" "  " 0 Json.null = "null" := by simp [encIndent]
  rw [h, he]
  refine ⟨by decide, by decide, rfl, by decide⟩

/-- C2: wherever an empty object or empty array occurs in the token stream
(an opening delimiter immediately followed by its closing delimiter), the
two delimiter segments are emitted immediately adjacent — no whitespace
segment, and hence no whitespace byte in the color-stripped output, stands
between them — for every configured prefix and indent unit. -/
theorem claim_C2 (cfg : Formatter) (xs ys : List Tok) :
    (∃ A B, (runFrom (procTok1 cfg) initFrames
        (xs ++ Tok.objOpen :: Tok.objClose :: ys)).1
      = A ++ Seg.painted Cat.object "\x7b" :: Seg.painted Cat.object "\x7d" :: B)
    ∧ (∃ A B, (runFrom (procTok1 cfg) initFrames
        (xs ++ Tok.arrOpen :: Tok.arrClose :: ys)).1
      = A ++ Seg.painted Cat.array "[" :: Seg.painted Cat.array "]" :: B) := by
  constructor
  · obtain ⟨A0, fr2, h⟩ :=
      runFrom_split (procTok1 cfg) xs initFrames (Tok.objOpen :: Tok.objClose :: ys)
    refine ⟨A0 ++ (if (topFrame fr2).inObject then [Seg.plain " "]
        else printIndent1 cfg fr2),
      Seg.plain (if moreAfter ys then ",\n" else "\n") ::
        (runFrom (procTok1 cfg) (toggleTop fr2) ys).1, ?_⟩
    rw [h, run1_empty_obj]
    simp [List.append_assoc]
  · obtain ⟨A0, fr2, h⟩ :=
      runFrom_split (procTok1 cfg) xs initFrames (Tok.arrOpen :: Tok.arrClose :: ys)
    refine ⟨A0 ++ (if (topFrame fr2).inObject then [Seg.plain " "]
        else printIndent1 cfg fr2),
      Seg.plain (if moreAfter ys then ",\n" else "\n") ::
        (runFrom (procTok1 cfg) (toggleTop fr2) ys).1, ?_⟩
    rw [h, run1_empty_arr]
    simp [List.append_assoc]

/-- C3 (counterexample): for the input value `\x7b"a":1,"b":2\x7d` formatted
with indent unit `""` and empty prefix, the color-stripped output does NOT
equal the compact encoder's output: the formatter still emits newlines, a
space after each colon and a trailing newline when the indent unit is empty. -/
theorem claim_C3_counterexample :
    strip (format1 { pfx := "", ind := "" } (tokens exAB)) ≠ encCompact exAB
    ∧ encCompact exAB = "\x7b\"a\":1,\"b\":2\x7d" := by
  have h : tokens exAB =
      [Tok.objOpen, Tok.tstr "a", Tok.tnum "1", Tok.tstr "b", Tok.tnum "2",
        Tok.objClose] := by
    simp [exAB, tokens, fieldsToks]
  have he : encCompact exAB = "\x7b\"a\":1,\"b\":2\x7d" := by
    simp [exAB, encCompact, encCompactFields, quoteStr, escChar, String.join]
    decide
  rw [h, he]
  exact ⟨by decide, rfl⟩

/-- C3 (amended): for the input value `\x7b"a":1,"b":2\x7d` with indent unit
`""` and empty prefix, both revisions of the formatter produce (after color
stripping) the newline-separated rendering with an empty indent — the same
shape as the standard indented writer with indent `""`, plus a trailing
newline — and not the compact encoding. -/
theorem claim_C3_amended :
    strip (format1 { pfx := "", ind := "" } (tokens exAB))
      = "\x7b\n\"a\": 1,\n\"b\": 2\n\x7d\n"
    ∧ strip (format2 { pfx := "", ind := "" } (tokens exAB))
      = "\x7b\n\"a\": 1,\n\"b\": 2\n\x7d\n"
    ∧ encIndent "" "" 0 exAB = "\x7b\n\"a\": 1,\n\"b\": 2\n\x7d" := by
  have h : tokens exAB =
      [Tok.objOpen, Tok.tstr "a", Tok.tnum "1", Tok.tstr "b", Tok.tnum "2",
        Tok.objClose] := by
    simp [exAB, tokens, fieldsToks]
  have he : encIndent "" "" 0 exAB = "\x7b\n\"a\": 1,\n\"b\": 2\n\x7d" := by
    simp [exAB, encIndent, encIndentFields, quoteStr, escChar, String.join,
      strRepeat]
    decide
  rw [h, he]
  exact ⟨by decide, by decide, rfl⟩

/-- C4: formatting is a deterministic function of the input bytes and the
configuration alone — `Format` builds a fresh `formatterState` per call, so
two calls with identical input and configuration produce identical output,
byte for byte (equal segment lists paint to equal bytes). -/
theorem claim_C4 (ε : Type) (f1 f2 : Formatter) (ts1 ts2 : TokStream ε)
    (hf : f1 = f2) (ht : ts1 = ts2) : format1E f1 ts1 = format1E f2 ts2 := by
  rw [hf, ht]

/-- C4 witness: the determinism theorem applied at a concrete input. -/
theorem claim_C4_witness :
    format1E (ε := Unit) NewFormatter ⟨[Tok.tnull], none⟩
      = format1E NewFormatter ⟨[Tok.tnull], none⟩ :=
  claim_C4 Unit NewFormatter NewFormatter ⟨[Tok.tnull], none⟩ ⟨[Tok.tnull], none⟩
    rfl rfl

/-- C5: when the token decoder fails (input bytes are not valid JSON), the
format loop stops at the failing token and `return err`s the decoder's error
value itself, unchanged — whatever that value is, of whatever error type. -/
theorem claim_C5 (ε : Type) (cfg : Formatter) (toks : List Tok) (e : ε) :
    format1E cfg ⟨toks, some e⟩ = Except.error e := rfl

/-- C6: whenever the encode step or the format step fails, `marshal` (the
shared body of `Marshal` and `MarshalIndent`) returns the pair
`(nil, err)` — the byte-slice component is nil, never a partial buffer. -/
theorem claim_C6 (ε : Type) (p i : String) (enc : Except ε (TokStream ε))
    (e : ε) :
    ((MarshalGo enc).2 = some e → (MarshalGo enc).1 = none)
    ∧ ((MarshalIndentGo p i enc).2 = some e → (MarshalIndentGo p i enc).1 = none) := by
  constructor <;> intro hsnd
  · cases enc with
    | error e2 => rfl
    | ok ts =>
      cases hterm : ts.term with
      | none => simp [MarshalGo, marshalGo, format1E, hterm] at hsnd
      | some e2 => simp [MarshalGo, marshalGo, format1E, hterm]
  · cases enc with
    | error e2 => rfl
    | ok ts =>
      cases hterm : ts.term with
      | none => simp [MarshalIndentGo, marshalGo, format1E, hterm] at hsnd
      | some e2 => simp [MarshalIndentGo, marshalGo, format1E, hterm]

/-- C6 witness: a failing encode step through `Marshal` and a failing decode
(format) step through `MarshalIndent` both yield a nil byte slice. -/
theorem claim_C6_witness :
    (MarshalGo (ε := Unit) (Except.error ())).1 = none
    ∧ (MarshalIndentGo (ε := Unit) "p" "i" (Except.ok ⟨[], some ()⟩)).1 = none :=
  ⟨(claim_C6 Unit "p" "i" (Except.error ()) ()).1 rfl,
    (claim_C6 Unit "p" "i" (Except.ok ⟨[], some ()⟩) ()).2 rfl⟩

/-- Every number token in a token stream reaches the output with its literal
text unchanged: `printNumber` emits the `json.Number` token itself, so the
literal is an infix of the color-stripped run output, whatever the starting
frame stack and configuration. -/
theorem num_verbatim (cfg : Formatter) :
    ∀ (toks : List Tok) (fr : List Frame) (n : String),
      Tok.tnum n ∈ toks →
      List.IsInfix n.data (strip (runFrom (procTok1 cfg) fr toks).1).data := by
  intro toks
  induction toks with
  | nil => intro fr n h; simp at h
  | cons t rest ih =>
    intro fr n h
    have hrun : (runFrom (procTok1 cfg) fr (t :: rest)).1
        = (procTok1 cfg fr t (moreAfter rest)).1
          ++ (runFrom (procTok1 cfg) (procTok1 cfg fr t (moreAfter rest)).2 rest).1 := by
      simp [runFrom]
    rcases List.mem_cons.mp h with heq | hmem
    · subst heq
      have hproc : (procTok1 cfg fr (Tok.tnum n) (moreAfter rest)).1
          = (if (topFrame fr).inArray then printIndent1 cfg fr else [])
            ++ [Seg.painted Cat.number n]
            ++ [Seg.plain (if (topFrame fr).inArrayOrObject && moreAfter rest
                then ",\n" else "\n")] := by
        simp [procTok1, scalarSeg]
      rw [hrun, hproc, strip_append, strip_append, strip_append]
      refine ⟨(strip (if (topFrame fr).inArray then printIndent1 cfg fr else [])).data,
        (strip [Seg.plain (if (topFrame fr).inArrayOrObject && moreAfter rest
            then ",\n" else "\n")]
          ++ strip (runFrom (procTok1 cfg)
              (procTok1 cfg fr (Tok.tnum n) (moreAfter rest)).2 rest).1).data, ?_⟩
      simp [String.data_append, strip, Seg.text, List.append_assoc]
    · obtain ⟨s, u, hsu⟩ :=
        ih (procTok1 cfg fr t (moreAfter rest)).2 n hmem
      refine ⟨(strip (procTok1 cfg fr t (moreAfter rest)).1).data ++ s, u, ?_⟩
      rw [hrun, strip_append, String.data_append, ← hsu]
      simp [List.append_assoc]

/-- C8: every number literal in the input appears byte-for-byte in the
color-stripped output: the formatter never re-formats numeric text. -/
theorem claim_C8 (cfg : Formatter) (toks : List Tok) (n : String)
    (h : Tok.tnum n ∈ toks) :
    List.IsInfix n.data (strip (format1 cfg toks)).data :=
  num_verbatim cfg toks initFrames n h

/-- C8 witness: the literals `1e100` and `0.10` of the input `[1e100,0.10]`
appear verbatim in the stripped output. -/
theorem claim_C8_witness :
    Tok.tnum "1e100" ∈ tokens exNums
    ∧ List.IsInfix "1e100".data (strip (format1 NewFormatter (tokens exNums))).data
    ∧ List.IsInfix "0.10".data (strip (format1 NewFormatter (tokens exNums))).data := by
  have h : tokens exNums = [Tok.arrOpen, Tok.tnum "1e100", Tok.tnum "0.10",
      Tok.arrClose] := by
    simp [exNums, tokens, elemsToks]
  refine ⟨by rw [h]; decide,
    claim_C8 NewFormatter (tokens exNums) "1e100" (by rw [h]; decide),
    claim_C8 NewFormatter (tokens exNums) "0.10" (by rw [h]; decide)⟩

/-- Stripping a segment list whose last segment's text is a newline yields a
string ending in a newline. -/
theorem strip_concat_nl (l : List Seg) (sg : Seg) (h : sg.text = "\n") :
    ∃ s, strip (l ++ [sg]) = s ++ "\n" := by
  refine ⟨strip l, ?_⟩
  rw [strip_append]
  simp [strip, h]

/-- The loop on a single-token stream is one iteration with a false
look-ahead. -/
theorem format1_single (cfg : Formatter) (t : Tok) :
    format1 cfg [t] = (procTok1 cfg initFrames t false).1 := by
  simp [format1, runFrom, moreAfter]

/-- As `format1_single`, second revision. -/
theorem format2_single (cfg : Formatter) (t : Tok) :
    format2 cfg [t] = (procTok2 cfg initFrames t false).1 := by
  simp [format2, runFrom, moreAfter]

/-- The first revision's output for a closing delimiter processed with a
false look-ahead ends in a newline. -/
theorem proc1_close_nl (cfg : Formatter) (fr : List Frame) (t : Tok)
    (h : t.isClose = true) :
    ∃ s, strip (procTok1 cfg fr t false).1 = s ++ "\n" := by
  cases t <;> simp [Tok.isClose] at h
  · have h1 : (procTok1 cfg fr Tok.objClose false).1
        = ((if (topFrame fr).isEmpty then []
            else printIndent1 cfg (leaveFrame fr)) ++ [delimSeg Tok.objClose])
          ++ [Seg.plain "\n"] := by
      simp [procTok1]
    rw [h1]
    exact strip_concat_nl _ _ rfl
  · have h1 : (procTok1 cfg fr Tok.arrClose false).1
        = ((if (topFrame fr).isEmpty then []
            else printIndent1 cfg (leaveFrame fr)) ++ [delimSeg Tok.arrClose])
          ++ [Seg.plain "\n"] := by
      simp [procTok1]
    rw [h1]
    exact strip_concat_nl _ _ rfl

/-- The second revision's output for a closing delimiter processed with a
false look-ahead ends in a newline (no comma is printed then). -/
theorem proc2_close_nl (cfg : Formatter) (fr : List Frame) (t : Tok)
    (h : t.isClose = true) :
    ∃ s, strip (procTok2 cfg fr t false).1 = s ++ "\n" := by
  cases t <;> simp [Tok.isClose] at h
  · have h1 : (procTok2 cfg fr Tok.objClose false).1
        = ((if (topFrame fr).isEmpty then []
            else printIndent2 cfg (leaveFrame fr)) ++ [delimSeg Tok.objClose])
          ++ [Seg.painted Cat.space "\n"] := by
      simp [procTok2]
    rw [h1]
    exact strip_concat_nl _ _ rfl
  · have h1 : (procTok2 cfg fr Tok.arrClose false).1
        = ((if (topFrame fr).isEmpty then []
            else printIndent2 cfg (leaveFrame fr)) ++ [delimSeg Tok.arrClose])
          ++ [Seg.painted Cat.space "\n"] := by
      simp [procTok2]
    rw [h1]
    exact strip_concat_nl _ _ rfl

/-- The first revision's output for a scalar token processed with a false
look-ahead outside field position ends in a newline. -/
theorem proc1_scalar_nl (cfg : Formatter) (fr : List Frame) (t : Tok)
    (hsc : t.isClose = false ∧ t ≠ Tok.objOpen ∧ t ≠ Tok.arrOpen)
    (hf : (topFrame fr).inField = false) :
    ∃ s, strip (procTok1 cfg fr t false).1 = s ++ "\n" := by
  obtain ⟨hc, ho, ha⟩ := hsc
  cases t <;> simp [Tok.isClose] at hc ho ha ⊢
  case tstr s0 =>
    have h1 : (procTok1 cfg fr (Tok.tstr s0) false).1
        = ((if !(topFrame fr).inObject || (topFrame fr).inField
            then printIndent1 cfg fr else [])
            ++ [scalarSeg fr (Tok.tstr s0)]) ++ [Seg.plain "\n"] := by
      simp [procTok1, hf]
    rw [h1]; exact strip_concat_nl _ _ rfl
  case tnum n =>
    have h1 : (procTok1 cfg fr (Tok.tnum n) false).1
        = ((if (topFrame fr).inArray then printIndent1 cfg fr else [])
            ++ [scalarSeg fr (Tok.tnum n)]) ++ [Seg.plain "\n"] := by
      simp [procTok1]
    rw [h1]; exact strip_concat_nl _ _ rfl
  case tbool b =>
    have h1 : (procTok1 cfg fr (Tok.tbool b) false).1
        = ((if (topFrame fr).inArray then printIndent1 cfg fr else [])
            ++ [scalarSeg fr (Tok.tbool b)]) ++ [Seg.plain "\n"] := by
      simp [procTok1]
    rw [h1]; exact strip_concat_nl _ _ rfl
  case tnull =>
    have h1 : (procTok1 cfg fr Tok.tnull false).1
        = ((if (topFrame fr).inArray then printIndent1 cfg fr else [])
            ++ [scalarSeg fr Tok.tnull]) ++ [Seg.plain "\n"] := by
      simp [procTok1]
    rw [h1]; exact strip_concat_nl _ _ rfl

/-- The second revision's output for a scalar token processed with a false
look-ahead outside field position ends in a newline. -/
theorem proc2_scalar_nl (cfg : Formatter) (fr : List Frame) (t : Tok)
    (hsc : t.isClose = false ∧ t ≠ Tok.objOpen ∧ t ≠ Tok.arrOpen)
    (hf : (topFrame fr).inField = false) :
    ∃ s, strip (procTok2 cfg fr t false).1 = s ++ "\n" := by
  obtain ⟨hc, ho, ha⟩ := hsc
  cases t <;> simp [Tok.isClose] at hc ho ha ⊢
  case tstr s0 =>
    have h1 : (procTok2 cfg fr (Tok.tstr s0) false).1
        = (((if !(topFrame fr).inObject || (topFrame fr).inField
            then printIndent2 cfg fr else [])
            ++ [Seg.painted Cat.space " "])
            ++ [scalarSeg fr (Tok.tstr s0)]) ++ [Seg.painted Cat.space "\n"] := by
      simp [procTok2, hf]
    rw [h1]; exact strip_concat_nl _ _ rfl
  case tnum n =>
    have h1 : (procTok2 cfg fr (Tok.tnum n) false).1
        = (((if (topFrame fr).inArray then printIndent2 cfg fr else [])
            ++ [Seg.painted Cat.space " "])
            ++ [scalarSeg fr (Tok.tnum n)]) ++ [Seg.painted Cat.space "\n"] := by
      simp [procTok2, hf]
    rw [h1]; exact strip_concat_nl _ _ rfl
  case tbool b =>
    have h1 : (procTok2 cfg fr (Tok.tbool b) false).1
        = (((if (topFrame fr).inArray then printIndent2 cfg fr else [])
            ++ [Seg.painted Cat.space " "])
            ++ [scalarSeg fr (Tok.tbool b)]) ++ [Seg.painted Cat.space "\n"] := by
      simp [procTok2, hf]
    rw [h1]; exact strip_concat_nl _ _ rfl
  case tnull =>
    have h1 : (procTok2 cfg fr Tok.tnull false).1
        = (((if (topFrame fr).inArray then printIndent2 cfg fr else [])
            ++ [Seg.painted Cat.space " "])
            ++ [scalarSeg fr Tok.tnull]) ++ [Seg.painted Cat.space "\n"] := by
      simp [procTok2, hf]
    rw [h1]; exact strip_concat_nl _ _ rfl

/-- C10: for every valid JSON input (the token stream of a value) the
color-stripped output of both revisions of `format` ends with a newline
emitted after the top-level value — including top-level scalars. -/
theorem claim_C10 (cfg : Formatter) (v : Json) :
    (∃ s, strip (format1 cfg (tokens v)) = s ++ "\n")
    ∧ (∃ s, strip (format2 cfg (tokens v)) = s ++ "\n") := by
  have hroot : (topFrame initFrames).inField = false := rfl
  cases v with
  | null =>
    have ht : tokens Json.null = [Tok.tnull] := by simp [tokens]
    rw [ht, format1_single, format2_single]
    exact ⟨proc1_scalar_nl cfg initFrames Tok.tnull (by decide) hroot,
      proc2_scalar_nl cfg initFrames Tok.tnull (by decide) hroot⟩
  | jbool b =>
    have ht : tokens (Json.jbool b) = [Tok.tbool b] := by simp [tokens]
    rw [ht, format1_single, format2_single]
    exact ⟨proc1_scalar_nl cfg initFrames (Tok.tbool b) ⟨rfl, by simp, by simp⟩ hroot,
      proc2_scalar_nl cfg initFrames (Tok.tbool b) ⟨rfl, by simp, by simp⟩ hroot⟩
  | num n =>
    have ht : tokens (Json.num n) = [Tok.tnum n] := by simp [tokens]
    rw [ht, format1_single, format2_single]
    exact ⟨proc1_scalar_nl cfg initFrames (Tok.tnum n) ⟨rfl, by simp, by simp⟩ hroot,
      proc2_scalar_nl cfg initFrames (Tok.tnum n) ⟨rfl, by simp, by simp⟩ hroot⟩
  | str s0 =>
    have ht : tokens (Json.str s0) = [Tok.tstr s0] := by simp [tokens]
    rw [ht, format1_single, format2_single]
    exact ⟨proc1_scalar_nl cfg initFrames (Tok.tstr s0) ⟨rfl, by simp, by simp⟩ hroot,
      proc2_scalar_nl cfg initFrames (Tok.tstr s0) ⟨rfl, by simp, by simp⟩ hroot⟩
  | arr es =>
    have ht : tokens (Json.arr es)
        = (Tok.arrOpen :: elemsToks es) ++ [Tok.arrClose] := by simp [tokens]
    constructor
    · obtain ⟨pre, fr2, h⟩ :=
        runFrom_snoc (procTok1 cfg) (Tok.arrOpen :: elemsToks es) initFrames
          Tok.arrClose
      obtain ⟨s, hs⟩ := proc1_close_nl cfg fr2 Tok.arrClose rfl
      refine ⟨strip pre ++ s, ?_⟩
      rw [format1, ht, h, strip_append, hs, String.append_assoc]
    · obtain ⟨pre, fr2, h⟩ :=
        runFrom_snoc (procTok2 cfg) (Tok.arrOpen :: elemsToks es) initFrames
          Tok.arrClose
      obtain ⟨s, hs⟩ := proc2_close_nl cfg fr2 Tok.arrClose rfl
      refine ⟨strip pre ++ s, ?_⟩
      rw [format2, ht, h, strip_append, hs, String.append_assoc]
  | obj fs =>
    have ht : tokens (Json.obj fs)
        = (Tok.objOpen :: fieldsToks fs) ++ [Tok.objClose] := by simp [tokens]
    constructor
    · obtain ⟨pre, fr2, h⟩ :=
        runFrom_snoc (procTok1 cfg) (Tok.objOpen :: fieldsToks fs) initFrames
          Tok.objClose
      obtain ⟨s, hs⟩ := proc1_close_nl cfg fr2 Tok.objClose rfl
      refine ⟨strip pre ++ s, ?_⟩
      rw [format1, ht, h, strip_append, hs, String.append_assoc]
    · obtain ⟨pre, fr2, h⟩ :=
        runFrom_snoc (procTok2 cfg) (Tok.objOpen :: fieldsToks fs) initFrames
          Tok.objClose
      obtain ⟨s, hs⟩ := proc2_close_nl cfg fr2 Tok.objClose rfl
      refine ⟨strip pre ++ s, ?_⟩
      rw [format2, ht, h, strip_append, hs, String.append_assoc]

/-- Toggling the field flag of the top frame never changes the stack depth. -/
theorem length_toggleTop (fr : List Frame) : (toggleTop fr).length = fr.length := by
  cases fr with
  | nil => rfl
  | cons f rest =>
    simp only [toggleTop]
    split <;> simp

/-- The frame-stack component of one first-revision iteration is exactly the
common transition `stepFrames`. -/
theorem proc1_frames (cfg : Formatter) (fr : List Frame) (t : Tok) (m : Bool) :
    (procTok1 cfg fr t m).2 = stepFrames fr t m := by
  cases t <;> rfl

/-- The frame-stack component of one second-revision iteration is exactly
the common transition `stepFrames`. -/
theorem proc2_frames (cfg : Formatter) (fr : List Frame) (t : Tok) (m : Bool) :
    (procTok2 cfg fr t m).2 = stepFrames fr t m := by
  cases t <;> rfl

/-- The first revision's frame-stack trace coincides with the trace of the
common transition (the configuration plays no role in frame bookkeeping). -/
theorem framesTrace1_eq (cfg : Formatter) :
    ∀ (toks : List Tok) (fr : List Frame),
      framesTrace1 cfg fr toks = framesTrace fr toks := by
  intro toks
  induction toks with
  | nil => intro fr; rfl
  | cons t rest ih =>
    intro fr
    simp only [framesTrace1, framesTrace, proc1_frames]
    rw [ih]

mutual

/-- Processing a value's token stream from any stack: the stack returns to
its starting depth and every intermediate stack is at least as deep as the
starting one. -/
theorem traceV (v : Json) : ∀ (fr : List Frame) (k : List Tok),
    ∃ mid fr2, framesTrace fr (tokens v ++ k) = mid ++ framesTrace fr2 k
      ∧ fr2.length = fr.length ∧ ∀ g ∈ mid, fr.length ≤ g.length := by
  cases v with
  | null =>
    intro fr k
    refine ⟨[fr], stepFrames fr Tok.tnull (moreAfter k), ?_, ?_, ?_⟩
    · simp [tokens, framesTrace]
    · simp [stepFrames, length_toggleTop]
    · simp
  | jbool b =>
    intro fr k
    refine ⟨[fr], stepFrames fr (Tok.tbool b) (moreAfter k), ?_, ?_, ?_⟩
    · simp [tokens, framesTrace]
    · simp [stepFrames, length_toggleTop]
    · simp
  | num n =>
    intro fr k
    refine ⟨[fr], stepFrames fr (Tok.tnum n) (moreAfter k), ?_, ?_, ?_⟩
    · simp [tokens, framesTrace]
    · simp [stepFrames, length_toggleTop]
    · simp
  | str s0 =>
    intro fr k
    refine ⟨[fr], stepFrames fr (Tok.tstr s0) (moreAfter k), ?_, ?_, ?_⟩
    · simp [tokens, framesTrace]
    · simp [stepFrames, length_toggleTop]
    · simp
  | arr es =>
    intro fr k
    obtain ⟨mid2, fr2, heq2, hlen2, hb2⟩ :=
      traceElems es
        (stepFrames fr Tok.arrOpen (moreAfter (elemsToks es ++ Tok.arrClose :: k)))
        (Tok.arrClose :: k)
    have hstep : (stepFrames fr Tok.arrOpen
        (moreAfter (elemsToks es ++ Tok.arrClose :: k))).length = fr.length + 1 := by
      simp [stepFrames, length_toggleTop, enterFrame]
    refine ⟨fr :: (mid2 ++ [fr2]), stepFrames fr2 Tok.arrClose (moreAfter k),
      ?_, ?_, ?_⟩
    · have hl : tokens (Json.arr es) ++ k
          = Tok.arrOpen :: (elemsToks es ++ Tok.arrClose :: k) := by
        simp [tokens]
      rw [hl]
      simp only [framesTrace]
      rw [heq2]
      simp only [framesTrace]
      simp [List.append_assoc]
    · have hc : (stepFrames fr2 Tok.arrClose (moreAfter k)).length
          = fr2.length - 1 := by
        simp [stepFrames, length_toggleTop, leaveFrame]
      omega
    · intro g hg
      rcases List.mem_cons.mp hg with hgfr | hg2
      · subst hgfr; exact Nat.le_refl _
      rcases List.mem_append.mp hg2 with hgm | hgl
      · have := hb2 g hgm; omega
      · have : g = fr2 := by simpa using hgl
        subst this; omega
  | obj fs =>
    intro fr k
    obtain ⟨mid2, fr2, heq2, hlen2, hb2⟩ :=
      traceFields fs
        (stepFrames fr Tok.objOpen (moreAfter (fieldsToks fs ++ Tok.objClose :: k)))
        (Tok.objClose :: k)
    have hstep : (stepFrames fr Tok.objOpen
        (moreAfter (fieldsToks fs ++ Tok.objClose :: k))).length = fr.length + 1 := by
      simp [stepFrames, length_toggleTop, enterFrame]
    refine ⟨fr :: (mid2 ++ [fr2]), stepFrames fr2 Tok.objClose (moreAfter k),
      ?_, ?_, ?_⟩
    · have hl : tokens (Json.obj fs) ++ k
          = Tok.objOpen :: (fieldsToks fs ++ Tok.objClose :: k) := by
        simp [tokens]
      rw [hl]
      simp only [framesTrace]
      rw [heq2]
      simp only [framesTrace]
      simp [List.append_assoc]
    · have hc : (stepFrames fr2 Tok.objClose (moreAfter k)).length
          = fr2.length - 1 := by
        simp [stepFrames, length_toggleTop, leaveFrame]
      omega
    · intro g hg
      rcases List.mem_cons.mp hg with hgfr | hg2
      · subst hgfr; exact Nat.le_refl _
      rcases List.mem_append.mp hg2 with hgm | hgl
      · have := hb2 g hgm; omega
      · have : g = fr2 := by simpa using hgl
        subst this; omega

/-- As `traceV`, for the concatenated token streams of array elements. -/
theorem traceElems (es : JsonElems) : ∀ (fr : List Frame) (k : List Tok),
    ∃ mid fr2, framesTrace fr (elemsToks es ++ k) = mid ++ framesTrace fr2 k
      ∧ fr2.length = fr.length ∧ ∀ g ∈ mid, fr.length ≤ g.length := by
  cases es with
  | nil =>
    intro fr k
    refine ⟨[], fr, ?_, rfl, ?_⟩
    · simp [elemsToks]
    · simp
  | cons v tl =>
    intro fr k
    obtain ⟨mid1, fr1, h1, hlen1, hb1⟩ := traceV v fr (elemsToks tl ++ k)
    obtain ⟨mid2, fr2, h2, hlen2, hb2⟩ := traceElems tl fr1 k
    refine ⟨mid1 ++ mid2, fr2, ?_, by omega, ?_⟩
    · have hl : elemsToks (JsonElems.cons v tl) ++ k
          = tokens v ++ (elemsToks tl ++ k) := by
        simp [elemsToks, List.append_assoc]
      rw [hl, h1, h2, List.append_assoc]
    · intro g hg
      rcases List.mem_append.mp hg with hgm | hgm
      · exact hb1 g hgm
      · have := hb2 g hgm; omega

/-- As `traceV`, for the concatenated token streams of object fields (a
field-name string token then the value's tokens). -/
theorem traceFields (fs : JsonFields) : ∀ (fr : List Frame) (k : List Tok),
    ∃ mid fr2, framesTrace fr (fieldsToks fs ++ k) = mid ++ framesTrace fr2 k
      ∧ fr2.length = fr.length ∧ ∀ g ∈ mid, fr.length ≤ g.length := by
  cases fs with
  | fnil =>
    intro fr k
    refine ⟨[], fr, ?_, rfl, ?_⟩
    · simp [fieldsToks]
    · simp
  | fcons key v tl =>
    intro fr k
    obtain ⟨mid1, fr1, h1, hlen1, hb1⟩ :=
      traceV v
        (stepFrames fr (Tok.tstr key)
          (moreAfter (tokens v ++ (fieldsToks tl ++ k))))
        (fieldsToks tl ++ k)
    obtain ⟨mid2, fr2, h2, hlen2, hb2⟩ := traceFields tl fr1 k
    have hstep : (stepFrames fr (Tok.tstr key)
        (moreAfter (tokens v ++ (fieldsToks tl ++ k)))).length = fr.length := by
      simp [stepFrames, length_toggleTop]
    refine ⟨fr :: (mid1 ++ mid2), fr2, ?_, by omega, ?_⟩
    · have hl : fieldsToks (JsonFields.fcons key v tl) ++ k
          = Tok.tstr key :: (tokens v ++ (fieldsToks tl ++ k)) := by
        simp [fieldsToks, List.append_assoc]
      rw [hl]
      simp only [framesTrace]
      rw [h1, h2]
      simp [List.append_assoc]
    · intro g hg
      rcases List.mem_cons.mp hg with hgfr | hg2
      · subst hgfr; exact Nat.le_refl _
      rcases List.mem_append.mp hg2 with hgm | hgm
      · have := hb1 g hgm; omega
      · have := hb2 g hgm; omega

end

/-- C7: throughout the first revision's format loop on the token stream of
any valid JSON value, from the synthetic root stack, every frame stack in
the trace (including the final one) holds at least one frame: the root frame
is never popped. -/
theorem claim_C7 (cfg : Formatter) (v : Json) (g : List Frame)
    (hg : g ∈ framesTrace1 cfg initFrames (tokens v)) : 1 ≤ g.length := by
  rw [framesTrace1_eq] at hg
  obtain ⟨mid, fr2, heq, hlen, hb⟩ := traceV v initFrames []
  rw [← List.append_nil (tokens v)] at hg
  rw [heq] at hg
  rcases List.mem_append.mp hg with h | h
  · have := hb g h
    simpa [initFrames] using this
  · have hgfr : g = fr2 := by simpa [framesTrace] using h
    subst hgfr
    simp [initFrames] at hlen
    omega

/-- C7 witness: the invariant applied to a concrete run. -/
theorem claim_C7_witness :
    initFrames ∈ framesTrace1 NewFormatter initFrames (tokens Json.null)
    ∧ 1 ≤ initFrames.length := by
  have ht : tokens Json.null = [Tok.tnull] := by simp [tokens]
  have hm : initFrames ∈ framesTrace1 NewFormatter initFrames (tokens Json.null) := by
    rw [ht]
    simp [framesTrace1]
  exact ⟨hm, claim_C7 NewFormatter Json.null initFrames hm⟩

/-- C9: `Marshal(v)` equals `MarshalIndent(v, "", "  ")` for every encoding
outcome: the single-argument entry point applies the default empty prefix
and two-space indent unit, so its output is the indented rendering, not the
compact one. -/
theorem claim_C9 (ε : Type) (enc : Except ε (TokStream ε)) :
    MarshalGo enc = MarshalIndentGo "" "  " enc := rfl

end Jsoncolor
